import Mathlib

/-!
Shallow embedding of the GEGL operation "Intense Anisotropic Smooth"
(`src/smooth.c`).  The source file carries two listings of the operation:

* the first listing (`V1` below) diffuses along eight neighbour
  directions, weighting each by a Gaussian conductance of the channel-0
  gradient, diagonals attenuated by `0.707`;
* the second listing (`V2` below) diffuses along the four axial
  directions, normalizes the flux by the sum of the four conductance
  weights when that sum exceeds `1e-6`, and clamps the normalized flux
  to `[-2, 2]`.

Machine floats (`gfloat`) are modelled as real numbers; an image is a
total function from integer coordinates and a channel index to ℝ, with
the region of interest being `[0,w) × [0,h)`.  The GEGL tile iterator is
modelled as presenting the whole region as a single tile.
-/

noncomputable section

/-- A 4-channel (RGBA) image: channel value at integer coordinates. -/
def Img : Type := ℤ → ℤ → Fin 4 → ℝ

/-- The glib macro CLAMP: value `v` forced into `[lo, hi]`. -/
def clampR (lo hi v : ℝ) : ℝ := max lo (min v hi)

/-- Properties of the operation, common to both listings (the two
listings declare different value ranges for them, captured by
`ValidConfigV1` / `ValidConfigV2` below). -/
structure Config where
  iterations : ℕ
  alpha : ℝ
  kappa : ℝ
  strength : ℝ
  delta_t : ℝ

/-- Property ranges declared by the first listing:
`iterations ∈ [1,20]`, `alpha ∈ [0,0.5]`, `kappa ∈ [5,50]`,
`strength ∈ [0,2]`, `delta_t ∈ [0.01,0.2]`. -/
def ValidConfigV1 (cfg : Config) : Prop :=
  1 ≤ cfg.iterations ∧ cfg.iterations ≤ 20 ∧
  0 ≤ cfg.alpha ∧ cfg.alpha ≤ 0.5 ∧
  5 ≤ cfg.kappa ∧ cfg.kappa ≤ 50 ∧
  0 ≤ cfg.strength ∧ cfg.strength ≤ 2 ∧
  0.01 ≤ cfg.delta_t ∧ cfg.delta_t ≤ 0.2

/-- Property ranges declared by the second listing:
`iterations ∈ [1,20]`, `alpha ∈ [0.1,1]`, `kappa ∈ [1,15]`,
`strength ∈ [0.5,5]`, `delta_t ∈ [0.05,0.5]`. -/
def ValidConfigV2 (cfg : Config) : Prop :=
  1 ≤ cfg.iterations ∧ cfg.iterations ≤ 20 ∧
  0.1 ≤ cfg.alpha ∧ cfg.alpha ≤ 1 ∧
  1 ≤ cfg.kappa ∧ cfg.kappa ≤ 15 ∧
  0.5 ≤ cfg.strength ∧ cfg.strength ≤ 5 ∧
  0.05 ≤ cfg.delta_t ∧ cfg.delta_t ≤ 0.5

/-- `conductance (gradient, kappa)` from both listings:
`g = gradient / kappa; return expf (-g * g)`. -/
def conductance (gradient kappa : ℝ) : ℝ :=
  Real.exp (-(gradient / kappa * (gradient / kappa)))

/-! ### First listing: eight-direction diffusion -/

/-- x-offset of the eight neighbour directions, in the order the first
listing visits them: W, E, N, S, NW, NE, SW, SE. -/
def dxV1 : Fin 8 → ℤ
  | 0 => -1 | 1 => 1 | 2 => 0 | 3 => 0
  | 4 => -1 | 5 => 1 | 6 => -1 | 7 => 1

/-- y-offset of the eight neighbour directions (same order). -/
def dyV1 : Fin 8 → ℤ
  | 0 => 0 | 1 => 0 | 2 => -1 | 3 => 1
  | 4 => -1 | 5 => -1 | 6 => 1 | 7 => 1

/-- Per-direction guard of the first listing: the neighbour exists inside
the `w × h` tile (`x > 0`, `x < width-1`, `y > 0`, `y < height-1`,
conjunctions for the diagonals). -/
def availV1 (w h : ℕ) (x y : ℤ) : Fin 8 → Bool
  | 0 => decide (0 < x)
  | 1 => decide (x < (w : ℤ) - 1)
  | 2 => decide (0 < y)
  | 3 => decide (y < (h : ℤ) - 1)
  | 4 => decide (0 < x) && decide (0 < y)
  | 5 => decide (x < (w : ℤ) - 1) && decide (0 < y)
  | 6 => decide (0 < x) && decide (y < (h : ℤ) - 1)
  | 7 => decide (x < (w : ℤ) - 1) && decide (y < (h : ℤ) - 1)

/-- `gradients[j][c]` of the first listing: neighbour minus centre. -/
def gradV1 (buf : Img) (x y : ℤ) (j : Fin 8) (c : Fin 4) : ℝ :=
  buf (x + dxV1 j) (y + dyV1 j) c - buf x y c

/-- Diagonal attenuation: directions 4–7 are scaled by `0.707`. -/
def diagV1 : Fin 8 → ℝ
  | 0 => 1 | 1 => 1 | 2 => 1 | 3 => 1
  | 4 => 0.707 | 5 => 0.707 | 6 => 0.707 | 7 => 0.707

/-- `weights[j]` of the first listing: Gaussian conductance of the
channel-0 gradient (times `0.707` on diagonals) when the neighbour
exists, otherwise the initialized `0`. -/
def weightV1 (kappa : ℝ) (w h : ℕ) (buf : Img) (x y : ℤ) (j : Fin 8) : ℝ :=
  if availV1 w h x y j then conductance (gradV1 buf x y j 0) kappa * diagV1 j else 0

/-- `sum[c]` of the first listing: over the eight directions, when
`weights[j] > 0`, accumulate `(weights[j]·alpha·strength)·gradients[j][c]`. -/
def sumV1 (cfg : Config) (w h : ℕ) (buf : Img) (x y : ℤ) (c : Fin 4) : ℝ :=
  ∑ j : Fin 8,
    (if 0 < weightV1 cfg.kappa w h buf x y j then
      weightV1 cfg.kappa w h buf x y j * cfg.alpha * cfg.strength * gradV1 buf x y j c
    else 0)

/-- One diffusion iteration of the first listing: inside the region each
channel becomes `CLAMP (old + delta_t · sum[c], 0, 1)`; coordinates
outside the region are untouched. -/
def stepV1 (cfg : Config) (w h : ℕ) (buf : Img) : Img :=
  fun x y c =>
    if 0 ≤ x ∧ x < (w : ℤ) ∧ 0 ≤ y ∧ y < (h : ℤ) then
      clampR 0 1 (buf x y c + cfg.delta_t * sumV1 cfg w h buf x y c)
    else buf x y c

/-- `process` of the first listing.  A region with `width < 2` or
`height < 2` is passed through unchanged before the temporary buffer is
allocated; otherwise the temporary allocation (modelled by `allocOk`)
either fails — `process` returns `FALSE` having written nothing, modelled
as `none` — or the diffusion iteration runs `iterations` times on the
copy of the input. -/
def processV1 (cfg : Config) (w h : ℕ) (allocOk : Bool) (img : Img) : Option Img :=
  if w < 2 ∨ h < 2 then some img
  else if allocOk then some ((stepV1 cfg w h)^[cfg.iterations] img) else none

/-! ### Second listing: four-direction normalized diffusion -/

/-- Per-direction guard of the second listing (W, E, N, S), after the
expanded read-rectangle is intersected back with the region: with the
whole region as one tile, `in_x = x`, `in_y = y`, `in_roi = result`. -/
def availV2 (w h : ℕ) (x y : ℤ) : Fin 4 → Bool
  | 0 => decide (0 < x)
  | 1 => decide (x < (w : ℤ) - 1)
  | 2 => decide (0 < y)
  | 3 => decide (y < (h : ℤ) - 1)

/-- x-offset of the four directions of the second listing: W, E, N, S. -/
def dxV2 : Fin 4 → ℤ
  | 0 => -1 | 1 => 1 | 2 => 0 | 3 => 0

/-- y-offset of the four directions of the second listing. -/
def dyV2 : Fin 4 → ℤ
  | 0 => 0 | 1 => 0 | 2 => -1 | 3 => 1

/-- `gradients[j][c]` of the second listing: neighbour minus centre when
the neighbour exists, otherwise the initialized `0`. -/
def gradV2 (w h : ℕ) (buf : Img) (x y : ℤ) (j : Fin 4) (c : Fin 4) : ℝ :=
  if availV2 w h x y j then buf (x + dxV2 j) (y + dyV2 j) c - buf x y c else 0

/-- `weights[j]` of the second listing: Gaussian conductance of the
absolute channel-0 gradient when the neighbour exists, otherwise `0`. -/
def weightV2 (kappa : ℝ) (w h : ℕ) (buf : Img) (x y : ℤ) (j : Fin 4) : ℝ :=
  if availV2 w h x y j then conductance |gradV2 w h buf x y j 0| kappa else 0

/-- `weight_sum` of the second listing: the four weights added. -/
def weightSumV2 (kappa : ℝ) (w h : ℕ) (buf : Img) (x y : ℤ) : ℝ :=
  weightV2 kappa w h buf x y 0 + weightV2 kappa w h buf x y 1 +
  weightV2 kappa w h buf x y 2 + weightV2 kappa w h buf x y 3

/-- The weighted-gradient combination
`weights[0]·gradients[0][c] + … + weights[3]·gradients[3][c]`. -/
def fluxV2 (kappa : ℝ) (w h : ℕ) (buf : Img) (x y : ℤ) (c : Fin 4) : ℝ :=
  weightV2 kappa w h buf x y 0 * gradV2 w h buf x y 0 c +
  weightV2 kappa w h buf x y 1 * gradV2 w h buf x y 1 c +
  weightV2 kappa w h buf x y 2 * gradV2 w h buf x y 2 c +
  weightV2 kappa w h buf x y 3 * gradV2 w h buf x y 3 c

/-- `sum[c]` of the second listing: when `weight_sum > 1e-6`, the flux is
scaled by `alpha·strength/weight_sum` and clamped to `[-2, 2]`;
otherwise it stays at its initialized `0`. -/
def sumV2 (cfg : Config) (w h : ℕ) (buf : Img) (x y : ℤ) (c : Fin 4) : ℝ :=
  if 1 / 1000000 < weightSumV2 cfg.kappa w h buf x y then
    clampR (-2) 2
      (cfg.alpha * cfg.strength / weightSumV2 cfg.kappa w h buf x y *
        fluxV2 cfg.kappa w h buf x y c)
  else 0

/-- One diffusion iteration of the second listing. -/
def stepV2 (cfg : Config) (w h : ℕ) (buf : Img) : Img :=
  fun x y c =>
    if 0 ≤ x ∧ x < (w : ℤ) ∧ 0 ≤ y ∧ y < (h : ℤ) then
      clampR 0 1 (buf x y c + cfg.delta_t * sumV2 cfg w h buf x y c)
    else buf x y c

/-- `process` of the second listing: passthrough for a region with
`width < 2` or `height < 2`, otherwise `iterations` diffusion steps
(output is copied back to the temporary buffer between iterations). -/
def processV2 (cfg : Config) (w h : ℕ) (img : Img) : Img :=
  if w < 2 ∨ h < 2 then img else (stepV2 cfg w h)^[cfg.iterations] img

/-! ### Derived predicates and concrete example data -/

/-- Every channel of every pixel of the region carries the value `v c`. -/
def UniformOn (w h : ℕ) (img : Img) (v : Fin 4 → ℝ) : Prop :=
  ∀ x y c, 0 ≤ x → x < (w : ℤ) → 0 ≤ y → y < (h : ℤ) → img x y c = v c

/-- Every channel value of the region lies in `[0, 1]`. -/
def Bounded01 (w h : ℕ) (img : Img) : Prop :=
  ∀ x y (c : Fin 4), 0 ≤ x → x < (w : ℤ) → 0 ≤ y → y < (h : ℤ) →
    0 ≤ img x y c ∧ img x y c ≤ 1

/-- A configuration demonstrating the first listing (its declared
default, with a single iteration): `alpha = 0.2`, `kappa = 20`,
`strength = 1`, `delta_t = 0.1`. -/
def exCfgA : Config := ⟨1, 1/5, 20, 1, 1/10⟩

/-- A configuration in the declared ranges of the second listing:
`alpha = 1`, `kappa = 4`, `strength = 2.5`, `delta_t = 0.3`, one
iteration. -/
def exCfgB : Config := ⟨1, 1, 4, 5/2, 3/10⟩

/-- A 2×2 example image: channel 0 is constant `1/2` (so every
conductance weight evaluates exactly), channel 1 is `0` at the origin
and `1` elsewhere, channels 2 and 3 are `0`. -/
def exImgA : Img := fun x y c =>
  if c = 0 then 1/2 else if c = 1 then (if x = 0 ∧ y = 0 then 0 else 1) else 0

/-- An example image forming a step along x: `0` for `x ≤ 1`, `1` from
`x = 2` on, in every channel. -/
def exImgC : Img := fun x _ _ => if 2 ≤ x then 1 else 0

/-- The constant half-grey image. -/
def constHalf : Img := fun _ _ _ => 1/2

/-- An image whose channel 0 is `1/2` and whose other channels are `0`. -/
def bufP : Img := fun _ _ c => if c = 0 then 1/2 else 0

/-- An image whose channel 0 is `1/2` and whose other channels are `1`:
it agrees with `bufP` exactly on channel 0. -/
def bufQ : Img := fun _ _ c => if c = 0 then 1/2 else 1

/-! ### Helper lemmas -/

theorem clampR_nonneg_le_one (v : ℝ) : 0 ≤ clampR 0 1 v ∧ clampR 0 1 v ≤ 1 := by
  unfold clampR
  exact ⟨le_max_left 0 _, max_le (by norm_num) (min_le_right v 1)⟩

theorem clampR_eq_self (lo hi v : ℝ) (h1 : lo ≤ v) (h2 : v ≤ hi) :
    clampR lo hi v = v := by
  unfold clampR
  rw [min_eq_left h2, max_eq_right h1]

theorem abs_clampR_le (a t : ℝ) (ha : 0 ≤ a) : |clampR (-a) a t| ≤ a := by
  unfold clampR
  rw [abs_le]
  exact ⟨le_max_left _ _, max_le (by linarith) (min_le_right t a)⟩

theorem availV1_nbr_in_range (w h : ℕ) (x y : ℤ) (j : Fin 8)
    (ha : availV1 w h x y j = true)
    (hx : 0 ≤ x) (hxw : x < (w : ℤ)) (hy : 0 ≤ y) (hyh : y < (h : ℤ)) :
    0 ≤ x + dxV1 j ∧ x + dxV1 j < (w : ℤ) ∧
    0 ≤ y + dyV1 j ∧ y + dyV1 j < (h : ℤ) := by
  fin_cases j <;> simp [availV1, dxV1, dyV1] at ha ⊢ <;> omega

theorem availV2_nbr_in_range (w h : ℕ) (x y : ℤ) (j : Fin 4)
    (ha : availV2 w h x y j = true)
    (hx : 0 ≤ x) (hxw : x < (w : ℤ)) (hy : 0 ≤ y) (hyh : y < (h : ℤ)) :
    0 ≤ x + dxV2 j ∧ x + dxV2 j < (w : ℤ) ∧
    0 ≤ y + dyV2 j ∧ y + dyV2 j < (h : ℤ) := by
  fin_cases j <;> simp [availV2, dxV2, dyV2] at ha ⊢ <;> omega

theorem stepV1_bounded01 (cfg : Config) (w h : ℕ) (buf : Img) :
    Bounded01 w h (stepV1 cfg w h buf) := by
  intro x y c hx hxw hy hyh
  unfold stepV1
  rw [if_pos ⟨hx, hxw, hy, hyh⟩]
  exact clampR_nonneg_le_one _

theorem stepV2_bounded01 (cfg : Config) (w h : ℕ) (buf : Img) :
    Bounded01 w h (stepV2 cfg w h buf) := by
  intro x y c hx hxw hy hyh
  unfold stepV2
  rw [if_pos ⟨hx, hxw, hy, hyh⟩]
  exact clampR_nonneg_le_one _

theorem stepV1_uniform (cfg : Config) (w h : ℕ) (buf : Img) (v : Fin 4 → ℝ)
    (hu : UniformOn w h buf v) (hv : ∀ c, 0 ≤ v c ∧ v c ≤ 1) :
    UniformOn w h (stepV1 cfg w h buf) v := by
  intro x y c hx hxw hy hyh
  have hsum : sumV1 cfg w h buf x y c = 0 := by
    unfold sumV1
    refine Finset.sum_eq_zero fun j _ => ?_
    by_cases ha : availV1 w h x y j = true
    · have hnbr := availV1_nbr_in_range w h x y j ha hx hxw hy hyh
      have hg : gradV1 buf x y j c = 0 := by
        unfold gradV1
        rw [hu _ _ _ hnbr.1 hnbr.2.1 hnbr.2.2.1 hnbr.2.2.2,
          hu _ _ _ hx hxw hy hyh, sub_self]
      rw [hg, mul_zero, ite_self]
    · have hw : weightV1 cfg.kappa w h buf x y j = 0 := by
        unfold weightV1
        rw [if_neg (by simpa using ha)]
      rw [hw]
      simp
  unfold stepV1
  rw [if_pos ⟨hx, hxw, hy, hyh⟩, hsum, mul_zero, add_zero,
    hu _ _ _ hx hxw hy hyh, clampR_eq_self _ _ _ (hv c).1 (hv c).2]

theorem gradV2_uniform (w h : ℕ) (buf : Img) (v : Fin 4 → ℝ)
    (hu : UniformOn w h buf v) (x y : ℤ) (j : Fin 4) (c : Fin 4)
    (hx : 0 ≤ x) (hxw : x < (w : ℤ)) (hy : 0 ≤ y) (hyh : y < (h : ℤ)) :
    gradV2 w h buf x y j c = 0 := by
  unfold gradV2
  by_cases ha : availV2 w h x y j = true
  · have hnbr := availV2_nbr_in_range w h x y j ha hx hxw hy hyh
    rw [if_pos (by simpa using ha),
      hu _ _ _ hnbr.1 hnbr.2.1 hnbr.2.2.1 hnbr.2.2.2,
      hu _ _ _ hx hxw hy hyh, sub_self]
  · rw [if_neg (by simpa using ha)]

theorem stepV2_uniform (cfg : Config) (w h : ℕ) (buf : Img) (v : Fin 4 → ℝ)
    (hu : UniformOn w h buf v) (hv : ∀ c, 0 ≤ v c ∧ v c ≤ 1) :
    UniformOn w h (stepV2 cfg w h buf) v := by
  intro x y c hx hxw hy hyh
  have hflux : fluxV2 cfg.kappa w h buf x y c = 0 := by
    unfold fluxV2
    rw [gradV2_uniform w h buf v hu x y 0 c hx hxw hy hyh,
      gradV2_uniform w h buf v hu x y 1 c hx hxw hy hyh,
      gradV2_uniform w h buf v hu x y 2 c hx hxw hy hyh,
      gradV2_uniform w h buf v hu x y 3 c hx hxw hy hyh]
    ring
  have hsum : sumV2 cfg w h buf x y c = 0 := by
    unfold sumV2
    rw [hflux, mul_zero, clampR_eq_self (-2) 2 0 (by norm_num) (by norm_num), ite_self]
  unfold stepV2
  rw [if_pos ⟨hx, hxw, hy, hyh⟩, hsum, mul_zero, add_zero,
    hu _ _ _ hx hxw hy hyh, clampR_eq_self _ _ _ (hv c).1 (hv c).2]

theorem iterate_uniform_V1 (cfg : Config) (w h : ℕ) (img : Img) (v : Fin 4 → ℝ)
    (hu : UniformOn w h img v) (hv : ∀ c, 0 ≤ v c ∧ v c ≤ 1) (n : ℕ) :
    UniformOn w h ((stepV1 cfg w h)^[n] img) v := by
  induction n with
  | zero => simpa using hu
  | succ m ih =>
      rw [Function.iterate_succ_apply']
      exact stepV1_uniform cfg w h _ v ih hv

theorem iterate_uniform_V2 (cfg : Config) (w h : ℕ) (img : Img) (v : Fin 4 → ℝ)
    (hu : UniformOn w h img v) (hv : ∀ c, 0 ≤ v c ∧ v c ≤ 1) (n : ℕ) :
    UniformOn w h ((stepV2 cfg w h)^[n] img) v := by
  induction n with
  | zero => simpa using hu
  | succ m ih =>
      rw [Function.iterate_succ_apply']
      exact stepV2_uniform cfg w h _ v ih hv

/-- Concrete evaluation behind the C1/C3 counterexamples: on the 2×2
example image at pixel `(0,0)`, channel 1, a single step of the first
listing produces `0 + 0.1 · (0.2 + 0.2 + 0.707·0.2) = 2707/50000`. -/
theorem stepV1_exImgA_eval : stepV1 exCfgA 2 2 exImgA 0 0 1 = 2707/50000 := by
  simp [stepV1, sumV1, Fin.sum_univ_eight, weightV1, gradV1, availV1, diagV1,
    dxV1, dyV1, conductance, exImgA, exCfgA, clampR]
  norm_num

/-! ### Claims -/

/-- C1 (counterexample): the claim says any region with `width < 3` or
`height < 3` is passed through untouched.  The code only passes through
below 2: on a 2×2 region (width and height both `< 3`) with the default
configuration of the first listing, `process` does diffuse — the output
differs from the input at pixel `(0,0)`, channel 1. -/
theorem processV1_2x2_not_passthrough : processV1 exCfgA 2 2 true exImgA ≠ some exImgA := by
  intro hcontra
  have hproc : processV1 exCfgA 2 2 true exImgA
      = some ((stepV1 exCfgA 2 2)^[1] exImgA) := by
    simp [processV1, exCfgA]
  rw [hproc] at hcontra
  have h2 := congrFun (congrFun (congrFun (Option.some.inj hcontra) 0) 0) 1
  rw [Function.iterate_one, stepV1_exImgA_eval] at h2
  have hR : exImgA 0 0 1 = 0 := by norm_num [exImgA]
  rw [hR] at h2
  norm_num at h2

/-- C1 (amended): for every input region with `width < 2` or
`height < 2` (not `< 3` as claimed) and every configuration, both
listings of `process` perform a passthrough copy: the output equals the
input exactly. -/
theorem process_passthrough_below_two (cfg : Config) (w h : ℕ) (ok : Bool)
    (img : Img) (hwh : w < 2 ∨ h < 2) :
    processV1 cfg w h ok img = some img ∧ processV2 cfg w h img = img := by
  unfold processV1 processV2
  rw [if_pos hwh, if_pos hwh]
  exact ⟨rfl, rfl⟩

/-- C1 (witness): the amended passthrough theorem applied to a concrete
1×5 region. -/
theorem process_passthrough_below_two_witness :
    processV1 exCfgA 1 5 true exImgA = some exImgA ∧ processV2 exCfgA 1 5 exImgA = exImgA :=
  process_passthrough_below_two exCfgA 1 5 true exImgA (Or.inl (by norm_num))

/-- C2: for every input whose channel values lie in `[0,1]`, every valid
configuration and every iteration count, every channel value of the
output of `process` lies in `[0,1]`, in both listings (each written
value is clamped to `[0,1]`, and the passthrough path copies the
in-range input). -/
theorem process_output_in_unit_interval
    (cfg1 cfg2 : Config) (w h : ℕ) (ok : Bool) (img out : Img)
    (hv1 : ValidConfigV1 cfg1) (hv2 : ValidConfigV2 cfg2)
    (hb : Bounded01 w h img)
    (hout : processV1 cfg1 w h ok img = some out) :
    Bounded01 w h out ∧ Bounded01 w h (processV2 cfg2 w h img) := by
  constructor
  · unfold processV1 at hout
    by_cases hwh : w < 2 ∨ h < 2
    · rw [if_pos hwh] at hout
      rw [← Option.some.inj hout]
      exact hb
    · rw [if_neg hwh] at hout
      cases ok with
      | false => simp at hout
      | true =>
          simp only [if_pos] at hout
          rw [← Option.some.inj hout]
          cases hn : cfg1.iterations with
          | zero => simpa using hb
          | succ m =>
              rw [Function.iterate_succ_apply']
              exact stepV1_bounded01 cfg1 w h _
  · unfold processV2
    by_cases hwh : w < 2 ∨ h < 2
    · rw [if_pos hwh]
      exact hb
    · rw [if_neg hwh]
      cases hn : cfg2.iterations with
      | zero => simpa using hb
      | succ m =>
          rw [Function.iterate_succ_apply']
          exact stepV2_bounded01 cfg2 w h _

/-- C2 (witness): the boundedness theorem applied to the constant
half-grey 2×2 image under the default configurations of each listing. -/
theorem process_output_in_unit_interval_witness :
    Bounded01 2 2 ((stepV1 exCfgA 2 2)^[1] constHalf)
    ∧ Bounded01 2 2 (processV2 exCfgB 2 2 constHalf) :=
  process_output_in_unit_interval exCfgA exCfgB 2 2 true constHalf
    ((stepV1 exCfgA 2 2)^[1] constHalf)
    (by norm_num [ValidConfigV1, exCfgA])
    (by norm_num [ValidConfigV2, exCfgB])
    (fun x y c _ _ _ _ => by norm_num [constHalf])
    (by simp [processV1, exCfgA])

/-- C5: a uniform-colour input region (all pixels identical, channel
values in `[0,1]`) is a fixed point of both listings of `process` for
every configuration and iteration count: the output region carries
exactly the same uniform colour. -/
theorem flat_field_fixed_point
    (cfg : Config) (w h : ℕ) (v : Fin 4 → ℝ) (ok : Bool) (img out : Img)
    (hu : UniformOn w h img v) (hv : ∀ c, 0 ≤ v c ∧ v c ≤ 1) :
    (processV1 cfg w h ok img = some out → UniformOn w h out v)
    ∧ UniformOn w h (processV2 cfg w h img) v := by
  constructor
  · intro hout
    unfold processV1 at hout
    by_cases hwh : w < 2 ∨ h < 2
    · rw [if_pos hwh] at hout
      rw [← Option.some.inj hout]
      exact hu
    · rw [if_neg hwh] at hout
      cases ok with
      | false => simp at hout
      | true =>
          simp only [if_pos] at hout
          rw [← Option.some.inj hout]
          exact iterate_uniform_V1 cfg w h img v hu hv cfg.iterations
  · unfold processV2
    by_cases hwh : w < 2 ∨ h < 2
    · rw [if_pos hwh]
      exact hu
    · rw [if_neg hwh]
      exact iterate_uniform_V2 cfg w h img v hu hv cfg.iterations

/-- C5 (witness): the flat-field theorem applied to the constant
half-grey 2×2 image; the second listing leaves the origin pixel at
`1/2`. -/
theorem flat_field_fixed_point_witness : processV2 exCfgB 2 2 constHalf 0 0 0 = 1/2 :=
  (flat_field_fixed_point exCfgB 2 2 (fun _ => 1/2) true constHalf constHalf
    (fun x y c _ _ _ _ => by norm_num [constHalf])
    (fun c => by norm_num)).2 0 0 0 (by norm_num) (by norm_num) (by norm_num) (by norm_num)

/-- C7: if allocation of the temporary buffer fails (first listing, the
only listing with an allocation check) on a non-degenerate region,
`process` reports a hard failure and writes no output: the result is
`none`, never a partially written image. -/
theorem processV1_allocation_failure (cfg : Config) (w h : ℕ) (img : Img)
    (h2 : 2 ≤ w) (h3 : 2 ≤ h) :
    processV1 cfg w h false img = none := by
  unfold processV1
  rw [if_neg (by omega)]
  rfl

/-- C7 (witness): allocation failure on a concrete 2×2 region. -/
theorem processV1_allocation_failure_witness :
    processV1 exCfgA 2 2 false constHalf = none :=
  processV1_allocation_failure exCfgA 2 2 constHalf (by norm_num) (by norm_num)

/-- Concrete evaluation: the flux sum of the first listing at the origin
of the 2×2 example image, channel 1
(`0.2·1 + 0.2·1 + 0.707·0.2·1 = 2707/5000`). -/
theorem sumV1_exImgA_eval : sumV1 exCfgA 2 2 exImgA 0 0 1 = 2707/5000 := by
  simp [sumV1, Fin.sum_univ_eight, weightV1, gradV1, availV1, diagV1,
    dxV1, dyV1, conductance, exImgA, exCfgA]
  norm_num

/-- C3 (counterexample): the claim says each updated value is damped by
the blend `0.9·value + 0.1·old` after the Euler step.  The code applies
no such blend: at the origin of the 2×2 example the written value is
`old + dt·sum = 2707/50000`, not the blended `24363/500000`. -/
theorem damping_blend_refuted :
    stepV1 exCfgA 2 2 exImgA 0 0 1 ≠
      clampR 0 1 (0.9 * (exImgA 0 0 1 + exCfgA.delta_t * sumV1 exCfgA 2 2 exImgA 0 0 1)
        + 0.1 * exImgA 0 0 1) := by
  rw [stepV1_exImgA_eval, sumV1_exImgA_eval]
  norm_num [exImgA, exCfgA, clampR]

/-- C3 (amended): per iteration, per pixel and channel, the new value is
`value = old + delta_t · sum`, then clamped to `[0,1]`; no `0.9/0.1`
damping blend is applied, in either listing. -/
theorem step_euler_update_rule (cfg : Config) (w h : ℕ) (buf : Img) (x y : ℤ)
    (c : Fin 4) (hx : 0 ≤ x) (hxw : x < (w : ℤ)) (hy : 0 ≤ y) (hyh : y < (h : ℤ)) :
    stepV1 cfg w h buf x y c
      = clampR 0 1 (buf x y c + cfg.delta_t * sumV1 cfg w h buf x y c)
    ∧ stepV2 cfg w h buf x y c
      = clampR 0 1 (buf x y c + cfg.delta_t * sumV2 cfg w h buf x y c) := by
  unfold stepV1 stepV2
  rw [if_pos ⟨hx, hxw, hy, hyh⟩, if_pos ⟨hx, hxw, hy, hyh⟩]
  exact ⟨rfl, rfl⟩

/-- C3 (witness): the update rule at the origin of the 2×2 example. -/
theorem step_euler_update_rule_witness :
    stepV1 exCfgA 2 2 exImgA 0 0 1
      = clampR 0 1 (exImgA 0 0 1 + exCfgA.delta_t * sumV1 exCfgA 2 2 exImgA 0 0 1)
    ∧ stepV2 exCfgA 2 2 exImgA 0 0 1
      = clampR 0 1 (exImgA 0 0 1 + exCfgA.delta_t * sumV2 exCfgA 2 2 exImgA 0 0 1) :=
  step_euler_update_rule exCfgA 2 2 exImgA 0 0 1
    (by norm_num) (by norm_num) (by norm_num) (by norm_num)

/-- Concrete evaluation behind the C4 counterexample: one step of the
second listing at the origin of the 2×2 example, channel 1: the
normalized flux `2.5` is clamped to `2`, giving `0 + 0.3·2 = 3/5`. -/
theorem stepV2_exImgA_eval : stepV2 exCfgB 2 2 exImgA 0 0 1 = 3/5 := by
  simp [stepV2, sumV2, weightSumV2, fluxV2, weightV2, gradV2, availV2,
    dxV2, dyV2, conductance, exImgA, exCfgB, clampR]
  norm_num

/-- C4 (counterexample): the claim says the per-pixel divergence term is
averaged by 2 and clamped to `[-0.2, 0.2]` before being multiplied by
the time step — which would bound each update by `delta_t · 0.2`.  On
the 2×2 example the origin pixel moves by `3/5`, three times the
claimed bound `exCfgB.delta_t · 0.2 = 3/50`. -/
theorem divergence_small_clamp_refuted :
    exImgA 0 0 1 = 0 ∧ stepV2 exCfgB 2 2 exImgA 0 0 1 = 3/5 ∧
    exCfgB.delta_t * (1/5) < |stepV2 exCfgB 2 2 exImgA 0 0 1 - exImgA 0 0 1| := by
  have h0 : exImgA 0 0 1 = 0 := by norm_num [exImgA]
  refine ⟨h0, stepV2_exImgA_eval, ?_⟩
  rw [stepV2_exImgA_eval, h0, sub_zero, abs_of_nonneg (by norm_num : (0:ℝ) ≤ 3/5)]
  norm_num [exCfgB]

/-- C4 (amended): in the second listing the per-pixel flux is divided by
the sum of the four conductance weights (when that sum exceeds `1e-6`)
and clamped to `[-2, 2]` — not averaged by 2 and clamped to
`[-0.2, 0.2]` — before being multiplied by the time step; consequently
`|sum| ≤ 2` always holds. -/
theorem sumV2_weightsum_clamp (cfg : Config) (w h : ℕ) (buf : Img) (x y : ℤ)
    (c : Fin 4) :
    |sumV2 cfg w h buf x y c| ≤ 2
    ∧ (1/1000000 < weightSumV2 cfg.kappa w h buf x y →
        sumV2 cfg w h buf x y c =
          clampR (-2) 2 (cfg.alpha * cfg.strength / weightSumV2 cfg.kappa w h buf x y *
            fluxV2 cfg.kappa w h buf x y c)) := by
  constructor
  · unfold sumV2
    by_cases hws : 1/1000000 < weightSumV2 cfg.kappa w h buf x y
    · rw [if_pos hws]
      exact abs_clampR_le 2 _ (by norm_num)
    · rw [if_neg hws]
      norm_num
  · intro hws
    unfold sumV2
    rw [if_pos hws]

/-- Concrete evaluation: the four-direction weight sum at the origin of
the 2×2 example (east and south weights are `exp 0 = 1`, west and north
do not exist). -/
theorem weightSumV2_exImgA_eval : weightSumV2 (4:ℝ) 2 2 exImgA 0 0 = 2 := by
  simp [weightSumV2, weightV2, gradV2, availV2, dxV2, dyV2, conductance, exImgA]
  norm_num

/-- C4 (witness): the amended clamp equation at the origin of the 2×2
example, where the weight sum `2` exceeds `1e-6`. -/
theorem sumV2_weightsum_clamp_witness :
    |sumV2 exCfgB 2 2 exImgA 0 0 1| ≤ 2
    ∧ sumV2 exCfgB 2 2 exImgA 0 0 1 =
        clampR (-2) 2 (exCfgB.alpha * exCfgB.strength / weightSumV2 exCfgB.kappa 2 2 exImgA 0 0 *
          fluxV2 exCfgB.kappa 2 2 exImgA 0 0 1) := by
  refine ⟨(sumV2_weightsum_clamp exCfgB 2 2 exImgA 0 0 1).1,
    (sumV2_weightsum_clamp exCfgB 2 2 exImgA 0 0 1).2 ?_⟩
  have hk : exCfgB.kappa = (4:ℝ) := rfl
  rw [hk, weightSumV2_exImgA_eval]
  norm_num

/-- C6 (counterexample): the claim says the horizontal gradient used by
the engine is the central difference `(P(x+1,y) - P(x-1,y)) / 2`.  On a
step image (`0` for `x ≤ 1`, `1` for `x ≥ 2`) at pixel `(1,1)` the
central difference is `1/2`, but the east gradients of both listings
are `1` and the west gradients are `0`. -/
theorem central_difference_refuted :
    gradV2 3 3 exImgC 1 1 1 0 ≠ (exImgC 2 1 0 - exImgC 0 1 0) / 2
    ∧ gradV2 3 3 exImgC 1 1 0 0 ≠ (exImgC 2 1 0 - exImgC 0 1 0) / 2
    ∧ gradV1 exImgC 1 1 1 0 ≠ (exImgC 2 1 0 - exImgC 0 1 0) / 2
    ∧ gradV1 exImgC 1 1 0 0 ≠ (exImgC 2 1 0 - exImgC 0 1 0) / 2 := by
  refine ⟨?_, ?_, ?_, ?_⟩ <;>
    norm_num [gradV2, gradV1, availV2, dxV2, dyV2, dxV1, dyV1, exImgC]

/-- C6 (amended): the engine uses one-sided gradients, neighbour minus
centre, per direction (east `P(x+1)-P(x)`, west `P(x-1)-P(x)`, south
`P(y+1)-P(y)`, north `P(y-1)-P(y)`); a direction whose neighbour is
unavailable gets zero gradient.  The central difference of the spec
equals half the difference of the east and west one-sided gradients but
is itself never computed. -/
theorem gradients_one_sided (w h : ℕ) (buf : Img) (x y : ℤ) (c : Fin 4) :
    (availV2 w h x y 1 = true → gradV2 w h buf x y 1 c = buf (x + 1) y c - buf x y c)
    ∧ (availV2 w h x y 1 = false → gradV2 w h buf x y 1 c = 0)
    ∧ (availV2 w h x y 0 = true → gradV2 w h buf x y 0 c = buf (x - 1) y c - buf x y c)
    ∧ (availV2 w h x y 0 = false → gradV2 w h buf x y 0 c = 0)
    ∧ (availV2 w h x y 3 = true → gradV2 w h buf x y 3 c = buf x (y + 1) c - buf x y c)
    ∧ (availV2 w h x y 2 = true → gradV2 w h buf x y 2 c = buf x (y - 1) c - buf x y c)
    ∧ (availV2 w h x y 0 = true → availV2 w h x y 1 = true →
        (gradV2 w h buf x y 1 c - gradV2 w h buf x y 0 c) / 2
          = (buf (x + 1) y c - buf (x - 1) y c) / 2) := by
  have hEt : availV2 w h x y 1 = true →
      gradV2 w h buf x y 1 c = buf (x + 1) y c - buf x y c := by
    intro ha
    simp [gradV2, ha, dxV2, dyV2]
  have hWt : availV2 w h x y 0 = true →
      gradV2 w h buf x y 0 c = buf (x - 1) y c - buf x y c := by
    intro ha
    simp [gradV2, ha, dxV2, dyV2, sub_eq_add_neg]
  refine ⟨hEt, fun ha => by simp [gradV2, ha], hWt, fun ha => by simp [gradV2, ha],
    fun ha => by simp [gradV2, ha, dxV2, dyV2],
    fun ha => by simp [gradV2, ha, dxV2, dyV2, sub_eq_add_neg],
    fun ha0 ha1 => by rw [hEt ha1, hWt ha0]; ring⟩

/-- C6 (witness): the one-sided east gradient and the central-difference
relation at pixel `(1,1)` of the step image. -/
theorem gradients_one_sided_witness :
    gradV2 3 3 exImgC 1 1 1 0 = exImgC 2 1 0 - exImgC 1 1 0
    ∧ (gradV2 3 3 exImgC 1 1 1 0 - gradV2 3 3 exImgC 1 1 0 0) / 2
        = (exImgC 2 1 0 - exImgC 0 1 0) / 2 := by
  have hthm := gradients_one_sided 3 3 exImgC 1 1 0
  have hE : availV2 3 3 1 1 1 = true := by decide
  have hW : availV2 3 3 1 1 0 = true := by decide
  exact ⟨hthm.1 hE, hthm.2.2.2.2.2.2 hW hE⟩

/-- C8: the only division of the per-pixel update of the second listing
is guarded: it is executed only when the weight sum exceeds `1e-6`
(hence the divisor is nonzero), and when the guard fails the flux term
stays `0`; the embedded update is a total function, so no division by
zero can occur for any input or configuration. -/
theorem sumV2_division_guard (cfg : Config) (w h : ℕ) (buf : Img) (x y : ℤ) :
    (1/1000000 < weightSumV2 cfg.kappa w h buf x y →
      weightSumV2 cfg.kappa w h buf x y ≠ 0)
    ∧ (¬ 1/1000000 < weightSumV2 cfg.kappa w h buf x y →
      ∀ c, sumV2 cfg w h buf x y c = 0) := by
  constructor
  · intro hws
    exact ne_of_gt (lt_trans (by norm_num) hws)
  · intro hws c
    unfold sumV2
    rw [if_neg hws]

/-- C8 (witness): at the origin of the 2×2 example the weight sum is `2`,
so the guarded divisor is nonzero. -/
theorem sumV2_division_guard_witness :
    weightSumV2 exCfgB.kappa 2 2 exImgA 0 0 ≠ 0 := by
  refine (sumV2_division_guard exCfgB 2 2 exImgA 0 0).1 ?_
  have hk : exCfgB.kappa = (4:ℝ) := rfl
  rw [hk, weightSumV2_exImgA_eval]
  norm_num

/-- C9: every conductance weight (in both listings) is computed solely
from the channel-0 (red) gradient: two buffers agreeing on channel 0 at
every pixel yield identical weights at every pixel and direction — and
hence identical weight sums — whatever channels 1–3 hold. -/
theorem weights_depend_only_on_channel0 (kappa : ℝ) (w h : ℕ) (buf1 buf2 : Img)
    (h0 : ∀ x y, buf1 x y 0 = buf2 x y 0) :
    (∀ x y j, weightV1 kappa w h buf1 x y j = weightV1 kappa w h buf2 x y j)
    ∧ (∀ x y j, weightV2 kappa w h buf1 x y j = weightV2 kappa w h buf2 x y j)
    ∧ ∀ x y, weightSumV2 kappa w h buf1 x y = weightSumV2 kappa w h buf2 x y := by
  have hg1 : ∀ x y j, gradV1 buf1 x y j 0 = gradV1 buf2 x y j 0 := by
    intro x y j
    unfold gradV1
    rw [h0, h0]
  have hg2 : ∀ x y j, gradV2 w h buf1 x y j 0 = gradV2 w h buf2 x y j 0 := by
    intro x y j
    unfold gradV2
    rw [h0, h0]
  have hw2 : ∀ x y j, weightV2 kappa w h buf1 x y j = weightV2 kappa w h buf2 x y j := by
    intro x y j
    unfold weightV2
    rw [hg2]
  refine ⟨fun x y j => ?_, hw2, fun x y => ?_⟩
  · unfold weightV1
    rw [hg1]
  · unfold weightSumV2
    rw [hw2, hw2, hw2, hw2]

/-- C9 (witness): two concrete buffers differing only in channel 1 get
the same east weight at the origin. -/
theorem weights_depend_only_on_channel0_witness :
    weightV1 20 2 2 bufP 0 0 1 = weightV1 20 2 2 bufQ 0 0 1
    ∧ weightV2 20 2 2 bufP 0 0 1 = weightV2 20 2 2 bufQ 0 0 1 :=
  ⟨(weights_depend_only_on_channel0 20 2 2 bufP bufQ
      (fun x y => by simp [bufP, bufQ])).1 0 0 1,
   (weights_depend_only_on_channel0 20 2 2 bufP bufQ
      (fun x y => by simp [bufP, bufQ])).2.1 0 0 1⟩

/-- C10: for every `kappa > 0` the conductance function satisfies
`conductance 0 kappa = 1`, always returns a value in `(0, 1]`, and is
monotonically non-increasing in the absolute value of the gradient. -/
theorem conductance_gaussian_properties (kappa : ℝ) (hk : 0 < kappa) :
    conductance 0 kappa = 1
    ∧ (∀ g, 0 < conductance g kappa ∧ conductance g kappa ≤ 1)
    ∧ ∀ g1 g2, |g1| ≤ |g2| → conductance g2 kappa ≤ conductance g1 kappa := by
  refine ⟨?_, fun g => ⟨Real.exp_pos _, ?_⟩, fun g1 g2 hg => ?_⟩
  · simp [conductance]
  · unfold conductance
    calc Real.exp (-(g / kappa * (g / kappa))) ≤ Real.exp 0 :=
          Real.exp_le_exp.mpr (neg_nonpos.mpr (mul_self_nonneg _))
      _ = 1 := Real.exp_zero
  · unfold conductance
    apply Real.exp_le_exp.mpr
    apply neg_le_neg
    have h1 : |g1 / kappa| ≤ |g2 / kappa| := by
      rw [abs_div, abs_div, abs_of_pos hk]
      exact div_le_div_of_nonneg_right hg hk.le
    rw [← abs_mul_abs_self (g1 / kappa), ← abs_mul_abs_self (g2 / kappa)]
    exact mul_self_le_mul_self (abs_nonneg _) h1

/-- C10 (witness): the conductance properties at `kappa = 20` and
gradients `0`, `1`, `2`. -/
theorem conductance_gaussian_properties_witness :
    conductance 0 20 = 1 ∧ (0 < conductance 1 20 ∧ conductance 1 20 ≤ 1)
    ∧ conductance 2 20 ≤ conductance 1 20 := by
  obtain ⟨h1, h2, h3⟩ := conductance_gaussian_properties 20 (by norm_num)
  exact ⟨h1, h2 1, h3 1 2 (by simp [abs_of_nonneg])⟩

end
